import Mathlib

/-!
Verification development for the zip-mcp archive engine
(`src/utils/compression.ts` plus the tool dispatch layer).

The repository code is a thin orchestration layer over an archive engine
(writer, reader, metadata reader).  The engine itself (the `zip.ZipWriter` /
`zip.ZipReader` codec) is not part of the repository source, so it is
modelled here from the specification: the archive byte buffer is abstracted
as its parsed structure (the central-directory entry records together with
their stored payloads and the archive comment), the deflate codec is
modelled as an executable invertible compressor, and per-entry encryption is
modelled as an executable keystream cipher with an authentication check that
detects a wrong password, exactly as the specification demands.  The
orchestration code (entry iteration, option handling, error wrapping, the
tool-level option adjustment) is translated directly from the source.
-/

deriving instance DecidableEq for Except

namespace ZipMCP

/-- Byte sequences (`Uint8Array` contents), modelled as lists of naturals. -/
abbrev Bytes := List Nat

/-- Modelled from the spec: the two entry compression methods, Store and
Deflate (spec section 3, `compressionMethod` enum). -/
inductive CompressionMethod
  | store
  | deflate
deriving DecidableEq, Repr

/-- The dynamic content type accepted by `compressData` for each item:
`Uint8Array | Blob | string` in the source, the tagged variant
Text / Bytes / Stream of spec section 9.  `bytes` covers the in-memory
binary shapes (`Uint8Array` and a materialised `Blob`); `stream` is a
content source whose read yields bytes or fails with a cause — the spec's
per-entry encode path may fail (sections 4.1 and 7, EncodingFailure). -/
inductive FileData
  | str (s : String)
  | bytes (b : Bytes)
  | stream (source : Except String Bytes)
deriving DecidableEq, Repr

/-- Modelled from the spec: UTF-8 encoding of one code point (the
`TextEncoder` used by the source to turn strings into bytes; spec section
4.1, canonical universal text encoding). -/
def utf8Enc (c : Nat) : Bytes :=
  if c < 128 then [c]
  else if c < 2048 then [192 + c / 64, 128 + c % 64]
  else if c < 65536 then [224 + c / 4096, 128 + (c / 64) % 64, 128 + c % 64]
  else [240 + c / 262144, 128 + (c / 4096) % 64, 128 + (c / 64) % 64, 128 + c % 64]

/-- Modelled from the spec: `new TextEncoder().encode(s)`. -/
def strBytes (s : String) : Bytes :=
  s.data.foldr (fun ch acc => utf8Enc ch.toNat ++ acc) []

/-- Normalisation performed at the writer boundary (spec section 9): strings
are encoded to bytes, binary content is used verbatim, and reading a stream
source either yields its bytes or fails with the underlying cause. -/
def FileData.read : FileData → Except String Bytes
  | .str s => .ok (strBytes s)
  | .bytes b => .ok b
  | .stream source => source

/-- `CompressionOptions` from the source: `level?: number`,
`password?: string`, `encryptionStrength?: 1 | 2 | 3`. -/
structure CompressionOptions where
  level : Option Int := none
  password : Option String := none
  encryptionStrength : Option Nat := none
deriving DecidableEq, Repr

/-- `DecompressionOptions` from the source: `password?: string`. -/
structure DecompressionOptions where
  password : Option String := none
deriving DecidableEq, Repr

/-- Modelled from the spec: the engine error taxonomy (spec section 7) with
the entry name attached where the error is entry-scoped. -/
inductive ZipError
  | invalidConfiguration
  | encodingFailure (entryName cause : String)
  | passwordRequired (entryName : String)
  | invalidPassword (entryName : String)
  | structuralCorruption
deriving DecidableEq, Repr

/-- The message text of an engine error (the `error.message` the wrapper
code interpolates into its own thrown error).  Per the spec boundary
contract the entry name is a separate structured field, not part of the
message text. -/
def ZipError.message : ZipError → String
  | .invalidConfiguration => "invalid compression level"
  | .encodingFailure _ cause => "encoding failure: " ++ cause
  | .passwordRequired _ => "password required"
  | .invalidPassword _ => "invalid password"
  | .structuralCorruption => "corrupted archive: end of central directory not found"

/-- The structured entry name of an engine error, when entry-scoped. -/
def ZipError.entryName : ZipError → Option String
  | .invalidConfiguration => none
  | .encodingFailure n _ => some n
  | .passwordRequired n => some n
  | .invalidPassword n => some n
  | .structuralCorruption => none

/-- Run-length pairs of a byte sequence: the core of the modelled deflate
encoder. -/
def rle : Bytes → List (Nat × Nat)
  | [] => []
  | b :: rest =>
    match rle rest with
    | [] => [(1, b)]
    | (n, c) :: t => if c = b then (n + 1, c) :: t else (1, b) :: (n, c) :: t

/-- Replay of run-length pairs back into bytes. -/
def unrle : List (Nat × Nat) → Bytes
  | [] => []
  | (n, c) :: t => List.replicate n c ++ unrle t

/-- Serialisation of run-length pairs into a flat byte stream. -/
def flattenRuns : List (Nat × Nat) → Bytes
  | [] => []
  | (n, c) :: t => n :: c :: flattenRuns t

/-- Modelled from the spec: the deflate encoder (spec section 2, leaf codec
converting raw bytes to a compressed representation).  The effort level
changes how hard a real encoder works, not the invertibility of the coding,
so the model emits one canonical run-length coding. -/
def deflateEncode (bs : Bytes) : Bytes := flattenRuns (rle bs)

/-- Modelled from the spec: the deflate decoder, inverse of `deflateEncode`. -/
def deflateDecode : Bytes → Bytes
  | n :: c :: rest => List.replicate n c ++ deflateDecode rest
  | _ => []

/-- Numeric key material derived from a password string. -/
def pwKey (p : String) : Nat :=
  p.data.foldl (fun a c => a * 131 + c.toNat + 1) 7

/-- Modelled from the spec: the password-derived keystream of the encryption
module, parameterised by the encryption strength tier. -/
def keystream (p : String) (s i : Nat) : Nat :=
  pwKey p * (s + 1) + 97 * i + 13

/-- Keystream application from a given stream index. -/
def encFrom (p : String) (s : Nat) : Nat → Bytes → Bytes
  | _, [] => []
  | i, b :: t => (b + keystream p s i) :: encFrom p s (i + 1) t

/-- Keystream removal from a given stream index. -/
def decFrom (p : String) (s : Nat) : Nat → Bytes → Bytes
  | _, [] => []
  | i, b :: t => (b - keystream p s i) :: decFrom p s (i + 1) t

/-- Modelled from the spec: per-entry encryption (spec section 2, encryption
module applying a password-derived stream cipher, parameterised by
strength). -/
def encryptBytes (p : String) (s : Nat) (bs : Bytes) : Bytes := encFrom p s 0 bs

/-- Modelled from the spec: per-entry decryption, inverse of `encryptBytes`
under the same password and strength. -/
def decryptBytes (p : String) (s : Nat) (bs : Bytes) : Bytes := decFrom p s 0 bs

/-- Modelled from the spec: one central-directory entry record together with
its stored (compressed, possibly encrypted) payload.  `encInfo` carries the
password-derived authentication material and the strength tier when the
entry is encrypted; per spec section 4.2 a wrong password is always detected
as an authentication mismatch, so the check compares key material exactly.
The last-modification timestamp is real-time data outside this model and is
omitted. -/
structure StoredEntry where
  filename : String
  directory : Bool
  payload : Bytes
  uncompressedSize : Nat
  compressedSize : Nat
  method : CompressionMethod
  encInfo : Option (String × Nat)
  comment : Option String
deriving DecidableEq, Repr

/-- The `entry.encrypted` flag exposed by the engine. -/
def StoredEntry.encrypted (e : StoredEntry) : Bool := e.encInfo.isSome

/-- Modelled from the spec: the archive byte buffer abstracted as its parsed
structure — the ordered central-directory entries plus the raw bytes of the
end-of-central-directory comment. -/
structure Archive where
  entries : List StoredEntry
  comment : Option Bytes
deriving DecidableEq, Repr

/-- `ZipInfo` from the source (per-entry metadata record); the `lastModDate`
field is real-time data outside this model and is omitted. -/
structure ZipInfo where
  filename : String
  size : Nat
  compressedSize : Nat
  encrypted : Bool
  comment : Option String
deriving DecidableEq, Repr

/-- `ZipMetadata` from the source. -/
structure ZipMetadata where
  files : List ZipInfo
  totalSize : Nat
  totalCompressedSize : Nat
  comment : Option String
deriving DecidableEq, Repr

/-- The compression level actually handed to the engine:
`options.level || 5` in the source.  In JavaScript `0` is falsy, so both an
absent level and an explicit level `0` yield `5`. -/
def effectiveLevel (opts : CompressionOptions) : Int :=
  match opts.level with
  | none => 5
  | some l => if l = 0 then 5 else l

/-- The encryption material the writer derives from its options: present
exactly when a password is set; the strength defaults to the top tier when
unspecified. -/
def encInfoOf (opts : CompressionOptions) : Option (String × Nat) :=
  opts.password.map (fun p => (p, opts.encryptionStrength.getD 3))

/-- Modelled from the spec: the entry record `zipWriter.add` stores for one
successfully read content item — compress per the effective level (level 0
stores the bytes raw, otherwise deflate), then encrypt when a password is
configured (spec section 4.1). -/
def mkEntry (el : Int) (enc : Option (String × Nat)) (name : String)
    (bytes : Bytes) : StoredEntry :=
  let compressed := if el = 0 then bytes else deflateEncode bytes
  let payload :=
    match enc with
    | none => compressed
    | some (p, s) => encryptBytes p s compressed
  { filename := name
    directory := false
    payload := payload
    uncompressedSize := bytes.length
    compressedSize := payload.length
    method := if el = 0 then .store else .deflate
    encInfo := enc
    comment := none }

/-- Modelled from the spec: one `zipWriter.add(name, reader)` step — read
the content stream, which is the per-entry encode path and may fail
signalling the entry and the underlying cause (spec sections 4.1 and 7,
EncodingFailure), then compress and encrypt into the stored record. -/
def addEntry (el : Int) (enc : Option (String × Nat)) (name : String)
    (d : FileData) : Except ZipError StoredEntry :=
  match d.read with
  | .error cause => .error (.encodingFailure name cause)
  | .ok bytes => .ok (mkEntry el enc name bytes)

/-- The writer's entry loop of `compressData`: add each item in input order;
the first per-entry failure aborts the whole write. -/
def addLoop (el : Int) (enc : Option (String × Nat)) :
    List (String × FileData) → Except ZipError (List StoredEntry)
  | [] => .ok []
  | it :: rest =>
    match addEntry el enc it.1 it.2 with
    | .error er => .error er
    | .ok e =>
      match addLoop el enc rest with
      | .error er => .error er
      | .ok es => .ok (e :: es)

/-- Modelled from the spec: entry names are unique within an archive, last
writer wins on collision (spec section 3); an entry survives exactly when no
later entry carries the same name. -/
def dedupLastWins : List StoredEntry → List StoredEntry
  | [] => []
  | e :: rest =>
    if rest.any (fun e2 => e2.filename == e.filename) then dedupLastWins rest
    else e :: dedupLastWins rest

/-- Last-writer-wins collapse on name-keyed pairs, used to state the
round-trip property at the level of the input item list. -/
def dedupLast {α : Type} : List (String × α) → List (String × α)
  | [] => []
  | p :: rest =>
    if rest.any (fun q => q.1 == p.1) then dedupLast rest
    else p :: dedupLast rest

/-- The dynamic input union of `compressData`: a single content value or an
array of named items. -/
inductive CompressInput
  | single (d : FileData)
  | multi (items : List (String × FileData))
deriving DecidableEq, Repr

/-- `compressData` from the source: construct the writer (the modelled
engine validates the compression level here, before any entry is processed —
spec section 7, `InvalidConfiguration` caught before processing begins; the
constructor sits outside the try block, so its error is not wrapped), then
add each item in input order (a single unnamed item gets the default name
`file`), aborting on the first per-entry failure, whose engine error the
catch block rethrows as a plain message with the fixed prefix; on success
close the writer into the final archive. -/
def compressData (input : CompressInput) (opts : CompressionOptions) :
    Except String Archive :=
  let el := effectiveLevel opts
  if el < 0 ∨ 9 < el then .error ZipError.invalidConfiguration.message
  else
    let enc := encInfoOf opts
    match input with
    | .single d =>
      match addLoop el enc [("file", d)] with
      | .error er => .error ("压缩失败: " ++ er.message)
      | .ok es => .ok { entries := dedupLastWins es, comment := none }
    | .multi items =>
      match addLoop el enc items with
      | .error er => .error ("压缩失败: " ++ er.message)
      | .ok es => .ok { entries := dedupLastWins es, comment := none }

/-- Decompression of a stored payload per its recorded method. -/
def inflate : CompressionMethod → Bytes → Bytes
  | .store, bs => bs
  | .deflate, bs => deflateDecode bs

/-- Modelled from the spec: `entry.getData(writer)` — decrypt (requiring the
password: a missing password and a wrong password are distinct errors, spec
section 4.2) and then decompress per the stored method. -/
def entryData (pw : Option String) (e : StoredEntry) : Except ZipError Bytes :=
  match e.encInfo with
  | none => .ok (inflate e.method e.payload)
  | some (p, s) =>
    match pw with
    | none => .error (.passwordRequired e.filename)
    | some q =>
        if q = p then .ok (inflate e.method (decryptBytes q s e.payload))
        else .error (.invalidPassword e.filename)

/-- The entry loop of `decompressData`: skip directory entries, extract each
remaining entry in order, and abort the whole pass on the first failure. -/
def readEntriesLoop (pw : Option String) :
    List StoredEntry → Except ZipError (List (String × Bytes))
  | [] => .ok []
  | e :: rest =>
    if e.directory then readEntriesLoop pw rest
    else
      match entryData pw e with
      | .error er => .error er
      | .ok d =>
        match readEntriesLoop pw rest with
        | .error er => .error er
        | .ok rs => .ok ((e.filename, d) :: rs)

/-- `decompressData` from the source: run the entry loop over the parsed
central directory; any engine error is caught and rethrown as a plain error
whose message is the fixed prefix plus the underlying message — the
structured fields of the engine error are not propagated. -/
def decompressData (arch : Archive) (opts : DecompressionOptions) :
    Except String (List (String × Bytes)) :=
  match readEntriesLoop opts.password arch.entries with
  | .ok rs => .ok rs
  | .error er => .error ("解压失败: " ++ er.message)

/-- Modelled from the spec: `new TextDecoder().decode` on the raw archive
comment bytes, used only for the metadata comment field. -/
def textDecode (bs : Bytes) : String := String.mk (bs.map Char.ofNat)

/-- `getZipInfo` from the source: walk the central directory (the engine
parses it without touching entry payloads, so the supplied password is never
consulted), list every non-directory entry and accumulate the two size
totals over exactly those entries. -/
def getZipInfo (arch : Archive) (_opts : DecompressionOptions) :
    Except String ZipMetadata :=
  let nondir := arch.entries.filter fun e => !e.directory
  .ok
    { files := nondir.map fun e =>
        { filename := e.filename
          size := e.uncompressedSize
          compressedSize := e.compressedSize
          encrypted := e.encrypted
          comment := e.comment }
      totalSize := (nondir.map fun e => e.uncompressedSize).sum
      totalCompressedSize := (nondir.map fun e => e.compressedSize).sum
      comment := arch.comment.map textDecode }

/-- The plaintext a successful extraction of an entry yields (decrypt with
the stored key material, then decompress per the stored method). -/
def plainOf (e : StoredEntry) : Bytes :=
  match e.encInfo with
  | none => inflate e.method e.payload
  | some (p, s) => inflate e.method (decryptBytes p s e.payload)

/-- The spec invariant on archives (section 3): the recorded uncompressed
size of every non-directory entry reflects the size of its plaintext
content. -/
def WellFormed (arch : Archive) : Prop :=
  ∀ e ∈ arch.entries, e.directory = false → e.uncompressedSize = (plainOf e).length

instance (arch : Archive) : Decidable (WellFormed arch) :=
  inferInstanceAs (Decidable
    (∀ e ∈ arch.entries, e.directory = false → e.uncompressedSize = (plainOf e).length))

/-- The compress tool level adjustment in the dispatch layer:
`if (compressionOptions?.level && compressionOptions.level > 3) level = 3`.
A JavaScript truthiness test guards the comparison, so an absent level and a
level of `0` are left untouched. -/
def toolCapLevel : Option Int → Option Int
  | none => none
  | some v => if v ≠ 0 ∧ 3 < v then some 3 else some v

/-- The options the compress tool actually hands to `compressData` after its
level adjustment. -/
def compressToolEngineOptions (opts : CompressionOptions) : CompressionOptions :=
  { opts with level := toolCapLevel opts.level }

/-- Substring test on strings, used to express that an error message does or
does not carry an entry name. -/
def containsStr (hay needle : String) : Bool :=
  hay.toList.tails.any fun t => needle.toList.isPrefixOf t

/-- Replaying run-length pairs undoes run-length grouping. -/
theorem unrle_rle (bs : Bytes) : unrle (rle bs) = bs := by
  induction bs with
  | nil => rfl
  | cons b rest ih =>
    cases h : rle rest with
    | nil =>
      have hrest : rest = [] := by rw [← ih, h]; rfl
      simp [rle, h, unrle, hrest]
    | cons p t =>
      obtain ⟨n, c⟩ := p
      by_cases hc : c = b
      · subst hc
        have hstep : unrle ((n + 1, c) :: t) = c :: unrle ((n, c) :: t) := by
          simp [unrle, List.replicate_succ]
        rw [rle, h]
        simp only [eq_self_iff_true, if_true]
        rw [hstep, ← h, ih]
      · rw [rle, h]
        simp only [if_neg hc]
        have hstep : unrle ((1, b) :: (n, c) :: t) = b :: unrle ((n, c) :: t) := by
          simp [unrle]
        rw [hstep, ← h, ih]

/-- Decoding a flattened run list replays the runs. -/
theorem deflateDecode_flattenRuns (l : List (Nat × Nat)) :
    deflateDecode (flattenRuns l) = unrle l := by
  induction l with
  | nil => rfl
  | cons p t ih =>
    obtain ⟨n, c⟩ := p
    simp [flattenRuns, deflateDecode, unrle, ih]

/-- The modelled deflate codec round-trips. -/
theorem deflateDecode_encode (bs : Bytes) : deflateDecode (deflateEncode bs) = bs := by
  rw [deflateEncode, deflateDecode_flattenRuns, unrle_rle]

/-- Keystream removal undoes keystream application at any stream index. -/
theorem decFrom_encFrom (p : String) (s : Nat) (bs : Bytes) :
    ∀ i, decFrom p s i (encFrom p s i bs) = bs := by
  induction bs with
  | nil => intro i; rfl
  | cons b t ih => intro i; simp [encFrom, decFrom, Nat.add_sub_cancel, ih]

/-- The modelled encryption codec round-trips under the same password and
strength. -/
theorem decrypt_encrypt (p : String) (s : Nat) (bs : Bytes) :
    decryptBytes p s (encryptBytes p s bs) = bs := by
  rw [encryptBytes, decryptBytes, decFrom_encFrom]

theorem mkEntry_filename (el : Int) (enc : Option (String × Nat)) (name : String)
    (bytes : Bytes) : (mkEntry el enc name bytes).filename = name := rfl

theorem mkEntry_directory (el : Int) (enc : Option (String × Nat)) (name : String)
    (bytes : Bytes) : (mkEntry el enc name bytes).directory = false := rfl

theorem mkEntry_encInfo (el : Int) (enc : Option (String × Nat)) (name : String)
    (bytes : Bytes) : (mkEntry el enc name bytes).encInfo = enc := rfl

/-- Extracting an entry written by the engine with the matching password
yields the original bytes. -/
theorem entryData_mkEntry (el : Int) (enc : Option (String × Nat)) (name : String)
    (bytes : Bytes) :
    entryData (enc.map Prod.fst) (mkEntry el enc name bytes) = .ok bytes := by
  cases enc with
  | none =>
    by_cases hel : el = 0 <;>
      simp [entryData, mkEntry, inflate, hel, deflateDecode_encode]
  | some ps =>
    obtain ⟨p, s⟩ := ps
    by_cases hel : el = 0 <;>
      simp [entryData, mkEntry, inflate, hel, decrypt_encrypt, deflateDecode_encode]

/-- The password the writer embeds is exactly the configured password. -/
theorem encInfoOf_fst (opts : CompressionOptions) :
    (encInfoOf opts).map Prod.fst = opts.password := by
  cases h : opts.password <;> simp [encInfoOf, h]

/-- The entry loop succeeds on a list of freshly written entries and returns
each name with its original bytes, in order. -/
theorem readEntriesLoop_map (el : Int) (enc : Option (String × Nat))
    (l : List (String × Bytes)) :
    readEntriesLoop (enc.map Prod.fst) (l.map fun p => mkEntry el enc p.1 p.2) =
      .ok (l.map fun p => (p.1, p.2)) := by
  induction l with
  | nil => rfl
  | cons hd tl ih =>
    simp only [List.map_cons, readEntriesLoop, mkEntry_directory, Bool.false_eq_true,
      if_false, entryData_mkEntry, ih, mkEntry_filename]

theorem any_map_eq {α β : Type} (f : α → β) (p : β → Bool) :
    ∀ l : List α, (l.map f).any p = l.any fun a => p (f a) := by
  intro l
  induction l with
  | nil => rfl
  | cons hd tl ih => simp only [List.map_cons, List.any_cons, ih]

/-- Last-writer-wins collapse commutes with writing the entries, because
writing preserves each item name. -/
theorem dedupLastWins_map (el : Int) (enc : Option (String × Nat))
    (l : List (String × Bytes)) :
    dedupLastWins (l.map fun p => mkEntry el enc p.1 p.2) =
      (dedupLast l).map fun p => mkEntry el enc p.1 p.2 := by
  induction l with
  | nil => rfl
  | cons hd tl ih =>
    have hany : ((tl.map fun p => mkEntry el enc p.1 p.2).any
        fun e2 => e2.filename == (mkEntry el enc hd.1 hd.2).filename) =
        tl.any fun q => q.1 == hd.1 :=
      any_map_eq (fun p => mkEntry el enc p.1 p.2)
        (fun e2 => e2.filename == (mkEntry el enc hd.1 hd.2).filename) tl
    rw [List.map_cons]
    simp only [dedupLastWins, dedupLast, hany]
    by_cases h : (tl.any fun q => q.1 == hd.1) = true
    · rw [if_pos h, if_pos h, ih]
    · rw [if_neg h, if_neg h, ih, List.map_cons]

theorem map_pair_eta {α : Type} (l : List (String × α)) :
    (l.map fun p => (p.1, p.2)) = l := by
  induction l with
  | nil => rfl
  | cons hd tl ih => simp [ih]

/-- Every survivor of the last-writer-wins collapse is one of the written
entries. -/
theorem dedupLastWins_subset {e : StoredEntry} :
    ∀ {l : List StoredEntry}, e ∈ dedupLastWins l → e ∈ l := by
  intro l
  induction l with
  | nil => intro h; exact absurd h (by simp [dedupLastWins])
  | cons hd tl ih =>
    intro h
    rw [dedupLastWins] at h
    by_cases hc : (tl.any fun e2 => e2.filename == hd.filename) = true
    · rw [if_pos hc] at h
      exact List.mem_cons_of_mem hd (ih h)
    · rw [if_neg hc] at h
      rcases List.mem_cons.mp h with h1 | h2
      · exact h1 ▸ List.mem_cons_self hd tl
      · exact List.mem_cons_of_mem hd (ih h2)

/-- The last-writer-wins collapse of a nonempty list is nonempty. -/
theorem dedupLastWins_ne_nil :
    ∀ {l : List StoredEntry}, l ≠ [] → dedupLastWins l ≠ [] := by
  intro l
  induction l with
  | nil => intro h; exact absurd rfl h
  | cons hd tl ih =>
    intro _
    rw [dedupLastWins]
    by_cases hc : (tl.any fun e2 => e2.filename == hd.filename) = true
    · rw [if_pos hc]
      rcases List.any_eq_true.mp hc with ⟨x, hx, _⟩
      exact ih (List.ne_nil_of_mem hx)
    · rw [if_neg hc]
      exact List.cons_ne_nil hd (dedupLastWins tl)

/-- The writer loop succeeds on items that are all in-memory byte contents
and stores one entry per item, in order. -/
theorem addLoop_ok (el : Int) (enc : Option (String × Nat))
    (items : List (String × Bytes)) :
    addLoop el enc (items.map fun p => (p.1, FileData.bytes p.2)) =
      .ok (items.map fun p => mkEntry el enc p.1 p.2) := by
  induction items with
  | nil => rfl
  | cons hd tl ih =>
    simp only [List.map_cons, addLoop, addEntry, FileData.read, ih]

/-- If some item of the input has a content stream whose read fails, the
writer loop fails. -/
theorem addLoop_error_of_mem (el : Int) (enc : Option (String × Nat)) :
    ∀ items : List (String × FileData),
      (∃ it ∈ items, ∃ cause, FileData.read it.2 = .error cause) →
      ∃ er : ZipError, addLoop el enc items = .error er := by
  intro items
  induction items with
  | nil => intro h; exact absurd h (by simp)
  | cons it rest ih =>
    intro h
    obtain ⟨w, hw, cause, hcause⟩ := h
    rcases List.mem_cons.mp hw with hwe | hwrest
    · subst hwe
      exact ⟨.encodingFailure w.1 cause, by simp only [addLoop, addEntry, hcause]⟩
    · rcases hadd : addEntry el enc it.1 it.2 with er | e
      · exact ⟨er, by simp only [addLoop, hadd]⟩
      · obtain ⟨er, hrest⟩ := ih ⟨w, hwrest, cause, hcause⟩
        exact ⟨er, by simp only [addLoop, hadd, hrest]⟩

/-- Core round-trip fact: reading back an archive written from byte items
with the write-time password succeeds and yields the items after the
last-writer-wins collapse. -/
theorem roundtrip_core (items : List (String × Bytes)) (opts : CompressionOptions)
    (arch : Archive)
    (h : compressData (.multi (items.map fun p => (p.1, FileData.bytes p.2))) opts = .ok arch) :
    decompressData arch { password := opts.password } = .ok (dedupLast items) := by
  simp only [compressData] at h
  by_cases hv : effectiveLevel opts < 0 ∨ 9 < effectiveLevel opts
  · rw [if_pos hv] at h
    exact absurd h (by simp)
  · rw [if_neg hv] at h
    simp only [addLoop_ok, Except.ok.injEq] at h
    subst h
    have hloop : readEntriesLoop opts.password
        (dedupLastWins (items.map fun p =>
          mkEntry (effectiveLevel opts) (encInfoOf opts) p.1 p.2)) =
        .ok (dedupLast items) := by
      rw [dedupLastWins_map, ← encInfoOf_fst opts, readEntriesLoop_map, map_pair_eta]
    simp only [decompressData, hloop]

/-- On an encrypted entry, extraction without a password is a
password-required error naming the entry. -/
theorem entryData_none_encrypted (e : StoredEntry) (p : String) (st : Nat)
    (h : e.encInfo = some (p, st)) :
    entryData none e = .error (.passwordRequired e.filename) := by
  simp only [entryData, h]

/-- On an encrypted entry, extraction with a wrong password is an
authentication-mismatch error naming the entry. -/
theorem entryData_wrong_pw (e : StoredEntry) (p : String) (st : Nat) (q : String)
    (h : e.encInfo = some (p, st)) (hq : q ≠ p) :
    entryData (some q) e = .error (.invalidPassword e.filename) := by
  simp only [entryData, h]
  rw [if_neg hq]

/-- When every entry of a nonempty central directory fails extraction with
errors of one message, the entry loop fails with that message. -/
theorem readEntriesLoop_error_head (pw : Option String) (m : String)
    (l : List StoredEntry) (hne : l ≠ [])
    (hdir : ∀ e ∈ l, e.directory = false)
    (herr : ∀ e ∈ l, ∃ er, entryData pw e = .error er ∧ er.message = m) :
    ∃ er, readEntriesLoop pw l = .error er ∧ er.message = m := by
  cases l with
  | nil => exact absurd rfl hne
  | cons e rest =>
    obtain ⟨er, he, hm⟩ := herr e (List.mem_cons_self e rest)
    refine ⟨er, ?_, hm⟩
    rw [readEntriesLoop, hdir e (List.mem_cons_self e rest)]
    simp only [Bool.false_eq_true, if_false, he]

/-- A successful extraction yields exactly the plaintext of the entry. -/
theorem entryData_ok_plain (pw : Option String) (e : StoredEntry) (b : Bytes)
    (h : entryData pw e = .ok b) : b = plainOf e := by
  rcases henc : e.encInfo with _ | ⟨p, s⟩
  · simp only [entryData, henc, Except.ok.injEq] at h
    simp only [plainOf, henc]
    exact h.symm
  · cases pw with
    | none =>
      simp only [entryData, henc] at h
      exact absurd h (by simp)
    | some q =>
      simp only [entryData, henc] at h
      by_cases hq : q = p
      · subst hq
        rw [if_pos rfl] at h
        simp only [Except.ok.injEq] at h
        simp only [plainOf, henc]
        exact h.symm
      · rw [if_neg hq] at h
        exact absurd h (by simp)

/-- When the entry loop succeeds, the recorded uncompressed sizes of the
non-directory entries sum to the total length of the extracted contents. -/
theorem readEntriesLoop_sizes (pw : Option String) :
    ∀ (l : List StoredEntry) (rs : List (String × Bytes)),
      readEntriesLoop pw l = .ok rs →
      (∀ e ∈ l, e.directory = false → e.uncompressedSize = (plainOf e).length) →
      ((l.filter fun e => !e.directory).map fun e => e.uncompressedSize).sum =
        (rs.map fun r => r.2.length).sum := by
  intro l
  induction l with
  | nil =>
    intro rs h _
    rw [readEntriesLoop] at h
    simp only [Except.ok.injEq] at h
    subst h
    rfl
  | cons e rest ih =>
    intro rs h hwf
    rcases hdir : e.directory with _ | _
    · rw [readEntriesLoop, hdir] at h
      simp only [Bool.false_eq_true, if_false] at h
      rcases he : entryData pw e with er | d
      · rw [he] at h; exact absurd h (by simp)
      · rw [he] at h
        rcases hr : readEntriesLoop pw rest with er | rs2
        · rw [hr] at h; exact absurd h (by simp)
        · rw [hr] at h
          simp only [Except.ok.injEq] at h
          subst h
          have hsum := ih rs2 hr (fun x hx => hwf x (List.mem_cons_of_mem e hx))
          have hlen : e.uncompressedSize = d.length := by
            rw [hwf e (List.mem_cons_self e rest) hdir, entryData_ok_plain pw e d he]
          simp only [List.filter_cons, hdir, Bool.not_false, if_pos, List.map_cons,
            List.sum_cons, hsum, hlen]
    · rw [readEntriesLoop, hdir] at h
      simp only [if_true] at h
      have hsum := ih rs h (fun x hx => hwf x (List.mem_cons_of_mem e hx))
      simp only [List.filter_cons, hdir, Bool.not_true, Bool.false_eq_true, if_false, hsum]

/-- Inserting a directory entry anywhere in the central directory changes
neither extraction nor the metadata walk. -/
theorem readEntriesLoop_dir_insert (pw : Option String) (d : StoredEntry)
    (hd : d.directory = true) :
    ∀ (pre post : List StoredEntry),
      readEntriesLoop pw (pre ++ d :: post) = readEntriesLoop pw (pre ++ post) := by
  intro pre
  induction pre with
  | nil => intro post; simp [readEntriesLoop, hd]
  | cons e pre2 ih =>
    intro post
    simp only [List.cons_append, readEntriesLoop, List.append_eq]
    rw [ih post]

/-- If some non-directory entry fails extraction, the whole entry loop
fails. -/
theorem readEntriesLoop_error_of_mem (pw : Option String) :
    ∀ l : List StoredEntry,
      (∃ e ∈ l, e.directory = false ∧ ∃ er, entryData pw e = .error er) →
      ∃ er2, readEntriesLoop pw l = .error er2 := by
  intro l
  induction l with
  | nil => intro h; exact absurd h (by simp)
  | cons e rest ih =>
    intro h
    obtain ⟨w, hw, hwdir, er, her⟩ := h
    rcases List.mem_cons.mp hw with hwe | hwrest
    · subst hwe
      refine ⟨er, ?_⟩
      rw [readEntriesLoop, hwdir]
      simp only [Bool.false_eq_true, if_false, her]
    · rcases hdir : e.directory with _ | _
      · rcases he : entryData pw e with er3 | dd
        · refine ⟨er3, ?_⟩
          rw [readEntriesLoop, hdir]
          simp only [Bool.false_eq_true, if_false, he]
        · obtain ⟨er2, hloop⟩ := ih ⟨w, hwrest, hwdir, er, her⟩
          refine ⟨er2, ?_⟩
          rw [readEntriesLoop, hdir]
          simp only [Bool.false_eq_true, if_false, he, hloop]
      · obtain ⟨er2, hloop⟩ := ih ⟨w, hwrest, hwdir, er, her⟩
        refine ⟨er2, ?_⟩
        rw [readEntriesLoop, hdir]
        simp only [if_true, hloop]

/-- C1: Round-trip — decompressing the archive produced by `compressData` on
a sequence of (name, byte-content) pairs, supplying the write-time password,
yields entries with identical names and byte-for-byte identical content in
the same input order, excluding collided names where only the last
occurrence survives. -/
theorem C1_roundtrip :
    ∀ (items : List (String × Bytes)) (opts : CompressionOptions) (arch : Archive),
      compressData (.multi (items.map fun p => (p.1, FileData.bytes p.2))) opts = .ok arch →
      decompressData arch { password := opts.password } = .ok (dedupLast items) :=
  fun items opts arch h => roundtrip_core items opts arch h

def itemsC1 : List (String × Bytes) := [("a.txt", [1, 2]), ("b.bin", [3]), ("a.txt", [4, 5, 6])]

def optsC1 : CompressionOptions :=
  { level := some 7, password := some "pw", encryptionStrength := some 2 }

def archC1 : Archive :=
  match compressData (.multi (itemsC1.map fun p => (p.1, FileData.bytes p.2))) optsC1 with
  | .ok a => a
  | .error _ => { entries := [], comment := none }

theorem C1_roundtrip_witness :
    compressData (.multi (itemsC1.map fun p => (p.1, FileData.bytes p.2))) optsC1 = .ok archC1 ∧
    decompressData archC1 { password := some "pw" } =
      .ok [("b.bin", [3]), ("a.txt", [4, 5, 6])] :=
  ⟨by decide, C1_roundtrip itemsC1 optsC1 archC1 (by decide)⟩

def optsC3 : CompressionOptions := { level := some 0 }

/-- C3: the claim says compression level 0 stores entries uncompressed; the
source computes `options.level || 5`, and JavaScript treats `0` as falsy, so
an explicit level 0 becomes effective level 5 and the entry is deflated —
evaluation of the code at the failing input. -/
theorem C3_level0_not_store :
    effectiveLevel optsC3 = 5 ∧
    ∃ arch, compressData (.multi [("a.txt", FileData.bytes [9, 9, 9])]) optsC3 = .ok arch ∧
      arch.entries.map (fun e => e.method) = [CompressionMethod.deflate] :=
  ⟨by decide, ⟨_, rfl, by decide⟩⟩

/-- C6: a configured compression level outside 0..9 makes `compressData`
fail with the invalid-configuration error; the result does not depend on the
input (no entry is processed) and no archive bytes are produced. -/
theorem C6_invalid_level_rejected :
    ∀ (input : CompressInput) (opts : CompressionOptions) (l : Int),
      opts.level = some l → (l < 0 ∨ 9 < l) →
      compressData input opts = .error ZipError.invalidConfiguration.message := by
  intro input opts l hl hout
  have hne : l ≠ 0 := by omega
  have hel : effectiveLevel opts = l := by
    simp only [effectiveLevel, hl]
    exact if_neg hne
  simp only [compressData, hel]
  rw [if_pos hout]

theorem C6_invalid_level_rejected_witness :
    ({ level := some 10 } : CompressionOptions).level = some 10 ∧
    ((10 : Int) < 0 ∨ 9 < (10 : Int)) ∧
    compressData (.multi [("a", FileData.bytes [1])]) { level := some 10 } =
      .error ZipError.invalidConfiguration.message :=
  ⟨rfl, by decide, C6_invalid_level_rejected _ _ 10 rfl (by decide)⟩

/-- C9: when no password is configured, the encryption strength option has
no effect — `compressData` produces the same archive for every value or
absence of `encryptionStrength`. -/
theorem C9_strength_ignored_without_password :
    ∀ (input : CompressInput) (lvl : Option Int) (s1 s2 : Option Nat),
      compressData input { level := lvl, password := none, encryptionStrength := s1 } =
      compressData input { level := lvl, password := none, encryptionStrength := s2 } := by
  intro input lvl s1 s2
  rfl

/-- C10: the compress tool of the dispatch layer silently caps any requested
level greater than 3 down to 3 before invoking `compressData`, so effort
levels 4..9 are never exercised through the tool interface. -/
theorem C10_tool_caps_level :
    ∀ (opts : CompressionOptions) (l : Int),
      opts.level = some l → 3 < l →
      (compressToolEngineOptions opts).level = some 3 := by
  intro opts l hl h3
  have hne : l ≠ 0 := by omega
  simp only [compressToolEngineOptions, toolCapLevel, hl]
  rw [if_pos ⟨hne, h3⟩]

theorem C10_tool_caps_level_witness :
    ({ level := some 9 } : CompressionOptions).level = some 9 ∧ (3 : Int) < 9 ∧
    (compressToolEngineOptions { level := some 9 }).level = some 3 :=
  ⟨rfl, by decide, C10_tool_caps_level { level := some 9 } 9 rfl (by decide)⟩

/-- C2: Password gating — reading an archive written with password p fails
with the password-required error when no password is supplied, fails with
the authentication-mismatch error (whose message differs from the
structural-corruption message) for any password other than p, and succeeds
with the original content for password p. -/
theorem C2_password_gating :
    ∀ (items : List (String × Bytes)) (opts : CompressionOptions) (p : String) (arch : Archive),
      opts.password = some p → items ≠ [] →
      compressData (.multi (items.map fun q => (q.1, FileData.bytes q.2))) opts = .ok arch →
      decompressData arch { password := none } =
        .error ("解压失败: " ++ (ZipError.passwordRequired "").message) ∧
      (∀ q : String, q ≠ p → decompressData arch { password := some q } =
        .error ("解压失败: " ++ (ZipError.invalidPassword "").message)) ∧
      decompressData arch { password := some p } = .ok (dedupLast items) ∧
      (ZipError.invalidPassword "").message ≠ ZipError.structuralCorruption.message := by
  intro items opts p arch hp hne h
  have hc := h
  simp only [compressData] at hc
  by_cases hv : effectiveLevel opts < 0 ∨ 9 < effectiveLevel opts
  · rw [if_pos hv] at hc
    exact absurd hc (by simp)
  · rw [if_neg hv] at hc
    simp only [addLoop_ok, Except.ok.injEq] at hc
    have henc : encInfoOf opts = some (p, opts.encryptionStrength.getD 3) := by
      simp [encInfoOf, hp]
    have hmem : ∀ e ∈ arch.entries,
        e.directory = false ∧ e.encInfo = some (p, opts.encryptionStrength.getD 3) := by
      intro e he
      rw [← hc] at he
      have he2 : e ∈ dedupLastWins (items.map fun q =>
          mkEntry (effectiveLevel opts) (encInfoOf opts) q.1 q.2) := he
      have he3 := dedupLastWins_subset he2
      obtain ⟨it, _, hit⟩ := List.mem_map.mp he3
      refine ⟨?_, ?_⟩
      · rw [← hit]; exact mkEntry_directory _ _ _ _
      · rw [← hit, mkEntry_encInfo, henc]
    have hanz : arch.entries ≠ [] := by
      rw [← hc]
      have h2 : (items.map fun q =>
          mkEntry (effectiveLevel opts) (encInfoOf opts) q.1 q.2) ≠ [] :=
        fun hcon => hne (List.map_eq_nil_iff.mp hcon)
      exact dedupLastWins_ne_nil h2
    refine ⟨?_, ?_, ?_, by decide⟩
    · obtain ⟨er, hloop, hm⟩ := readEntriesLoop_error_head none "password required"
        arch.entries hanz (fun e he => (hmem e he).1)
        (fun e he => ⟨.passwordRequired e.filename,
          entryData_none_encrypted e p _ (hmem e he).2, rfl⟩)
      simp only [decompressData, hloop, hm]
      rfl
    · intro q hq
      obtain ⟨er, hloop, hm⟩ := readEntriesLoop_error_head (some q) "invalid password"
        arch.entries hanz (fun e he => (hmem e he).1)
        (fun e he => ⟨.invalidPassword e.filename,
          entryData_wrong_pw e p _ q (hmem e he).2 hq, rfl⟩)
      simp only [decompressData, hloop, hm]
      rfl
    · have hrt := roundtrip_core items opts arch h
      rw [hp] at hrt
      exact hrt

def itemsC2 : List (String × Bytes) := [("a.txt", [1, 2, 3])]

def optsC2 : CompressionOptions := { level := some 4, password := some "p" }

def archC2 : Archive :=
  match compressData (.multi (itemsC2.map fun q => (q.1, FileData.bytes q.2))) optsC2 with
  | .ok a => a
  | .error _ => { entries := [], comment := none }

theorem C2_password_gating_witness :
    (optsC2.password = some "p" ∧ itemsC2 ≠ [] ∧
      compressData (.multi (itemsC2.map fun q => (q.1, FileData.bytes q.2))) optsC2 =
        .ok archC2) ∧
    (decompressData archC2 { password := none } =
        .error ("解压失败: " ++ (ZipError.passwordRequired "").message) ∧
      (∀ q : String, q ≠ "p" → decompressData archC2 { password := some q } =
        .error ("解压失败: " ++ (ZipError.invalidPassword "").message)) ∧
      decompressData archC2 { password := some "p" } = .ok (dedupLast itemsC2) ∧
      (ZipError.invalidPassword "").message ≠ ZipError.structuralCorruption.message) :=
  ⟨⟨rfl, by decide, by decide⟩,
    C2_password_gating itemsC2 optsC2 "p" archC2 rfl (by decide) (by decide)⟩

/-- C4: whenever decompressData and getZipInfo both succeed on the same
archive and password (and the archive satisfies the spec size invariant),
the metadata totalSize equals the sum of the byte lengths of the extracted
non-directory entries. -/
theorem C4_metadata_content_consistency :
    ∀ (arch : Archive) (opts : DecompressionOptions) (rs : List (String × Bytes)),
      WellFormed arch → decompressData arch opts = .ok rs →
      ∃ m, getZipInfo arch opts = .ok m ∧
        m.totalSize = (rs.map fun r => r.2.length).sum := by
  intro arch opts rs hwf h
  rcases hl : readEntriesLoop opts.password arch.entries with er | rs2
  · simp only [decompressData, hl] at h
    exact absurd h (by simp)
  · simp only [decompressData, hl, Except.ok.injEq] at h
    subst h
    exact ⟨_, rfl, readEntriesLoop_sizes opts.password arch.entries rs2 hl hwf⟩

def archC4 : Archive :=
  match compressData (.multi [("a", FileData.bytes [1, 2, 3]), ("b", FileData.bytes [])])
      { level := some 2, password := some "p" } with
  | .ok a => a
  | .error _ => { entries := [], comment := none }

def rsC4 : List (String × Bytes) := [("a", [1, 2, 3]), ("b", [])]

theorem C4_metadata_content_consistency_witness :
    (WellFormed archC4 ∧ decompressData archC4 { password := some "p" } = .ok rsC4) ∧
    ∃ m, getZipInfo archC4 { password := some "p" } = .ok m ∧
      m.totalSize = (rsC4.map fun r => r.2.length).sum :=
  ⟨⟨by decide, by decide⟩,
    C4_metadata_content_consistency archC4 { password := some "p" } rsC4 (by decide) (by decide)⟩

def dirEntryC5 : StoredEntry :=
  { filename := "d/", directory := true, payload := [], uncompressedSize := 0,
    compressedSize := 0, method := .store, encInfo := none, comment := none }

def fileEntryC5 : StoredEntry :=
  { filename := "a.txt", directory := false, payload := [5, 6, 7], uncompressedSize := 3,
    compressedSize := 3, method := .store, encInfo := none, comment := none }

def archC5 : Archive := { entries := [dirEntryC5, fileEntryC5], comment := none }

/-- C5 counterexample: on an archive containing the directory entry `d/`,
getZipInfo omits that entry from the returned files list, so it is not
retained in the metadata as the claim states. -/
theorem C5_counterexample :
    ∃ m, getZipInfo archC5 { password := none } = .ok m ∧
      "d/" ∉ m.files.map (fun f => f.filename) :=
  ⟨_, rfl, by decide⟩

/-- C5 amended: a directory entry is excluded from the files list of
getZipInfo, from both size totals, and from decompressData output —
inserting a directory entry anywhere in the central directory changes
neither operation result. -/
theorem C5_directory_entries_excluded :
    ∀ (pre post : List StoredEntry) (d : StoredEntry) (c : Option Bytes)
      (opts : DecompressionOptions),
      d.directory = true →
      getZipInfo { entries := pre ++ d :: post, comment := c } opts =
        getZipInfo { entries := pre ++ post, comment := c } opts ∧
      decompressData { entries := pre ++ d :: post, comment := c } opts =
        decompressData { entries := pre ++ post, comment := c } opts := by
  intro pre post d c opts hd
  constructor
  · simp [getZipInfo, List.filter_append, List.filter_cons, hd]
  · simp only [decompressData, readEntriesLoop_dir_insert opts.password d hd pre post]

theorem C5_directory_entries_excluded_witness :
    dirEntryC5.directory = true ∧
    (getZipInfo { entries := [] ++ dirEntryC5 :: [fileEntryC5], comment := none }
        { password := none } =
      getZipInfo { entries := [] ++ [fileEntryC5], comment := none } { password := none } ∧
    decompressData { entries := [] ++ dirEntryC5 :: [fileEntryC5], comment := none }
        { password := none } =
      decompressData { entries := [] ++ [fileEntryC5], comment := none } { password := none }) :=
  ⟨rfl, C5_directory_entries_excluded [] [fileEntryC5] dirEntryC5 none { password := none } rfl⟩

def archC7 : Archive :=
  match compressData (.multi [("secret.txt", FileData.bytes [1, 2])])
      { password := some "p" } with
  | .ok a => a
  | .error _ => { entries := [], comment := none }

/-- C7 counterexample: a password-required failure scoped to the entry
`secret.txt` aborts decompressData, and a per-entry encode failure scoped to
the entry `bad.txt` aborts compressData, but in both cases the returned
error is the bare prefixed message string carrying the underlying cause and
not the offending entry name. -/
theorem C7_counterexample :
    compressData (.multi [("secret.txt", FileData.bytes [1, 2])]) { password := some "p" } =
      .ok archC7 ∧
    decompressData archC7 { password := none } = .error "解压失败: password required" ∧
    containsStr "解压失败: password required" "secret.txt" = false ∧
    compressData (.multi [("bad.txt", FileData.stream (.error "stream read error"))]) {} =
      .error "压缩失败: encoding failure: stream read error" ∧
    containsStr "压缩失败: encoding failure: stream read error" "bad.txt" = false :=
  ⟨by decide, by decide, by decide, by decide, by decide⟩

/-- C7 amended: every entry-scoped failure — a per-entry encode/compress/
encrypt failure in compressData as well as a password/decryption failure in
decompressData — aborts the whole operation with no partial result; the
returned error carries the fixed operation prefix and the underlying cause
message, but the structured entry name is not propagated by the wrapper
catch blocks. -/
theorem C7_entry_failure_aborts :
    ∀ (items : List (String × FileData)) (opts : CompressionOptions)
      (arch : Archive) (dopts : DecompressionOptions),
      ¬(effectiveLevel opts < 0 ∨ 9 < effectiveLevel opts) →
      (∃ it ∈ items, ∃ cause, FileData.read it.2 = .error cause) →
      (∃ e ∈ arch.entries, e.directory = false ∧ ∃ er, entryData dopts.password e = .error er) →
      (∃ er : ZipError, compressData (.multi items) opts =
        .error ("压缩失败: " ++ er.message)) ∧
      (∃ er2 : ZipError, decompressData arch dopts =
        .error ("解压失败: " ++ er2.message)) := by
  intro items opts arch dopts hv hitems harch
  constructor
  · obtain ⟨er, hl⟩ := addLoop_error_of_mem (effectiveLevel opts) (encInfoOf opts) items hitems
    refine ⟨er, ?_⟩
    simp only [compressData]
    rw [if_neg hv]
    simp only [hl]
  · obtain ⟨er2, hloop⟩ := readEntriesLoop_error_of_mem dopts.password arch.entries harch
    exact ⟨er2, by simp only [decompressData, hloop]⟩

def entC7 : StoredEntry :=
  { filename := "x.txt", directory := false, payload := [9], uncompressedSize := 1,
    compressedSize := 1, method := .store, encInfo := some ("p", 3), comment := none }

def archC7b : Archive := { entries := [entC7], comment := none }

def itemsC7 : List (String × FileData) :=
  [("ok.txt", FileData.bytes [1]), ("bad.txt", FileData.stream (.error "stream read error"))]

def optsC7 : CompressionOptions := {}

theorem C7_entry_failure_aborts_witness :
    (¬(effectiveLevel optsC7 < 0 ∨ 9 < effectiveLevel optsC7) ∧
      (∃ it ∈ itemsC7, ∃ cause, FileData.read it.2 = .error cause) ∧
      (∃ e ∈ archC7b.entries, e.directory = false ∧ ∃ er, entryData none e = .error er)) ∧
    (∃ er : ZipError, compressData (.multi itemsC7) optsC7 =
      .error ("压缩失败: " ++ er.message)) ∧
    (∃ er2 : ZipError, decompressData archC7b { password := none } =
      .error ("解压失败: " ++ er2.message)) :=
  ⟨⟨by decide,
      ⟨("bad.txt", FileData.stream (.error "stream read error")), by decide,
        "stream read error", rfl⟩,
      ⟨entC7, by decide, rfl, ⟨.passwordRequired "x.txt", by decide⟩⟩⟩,
    (C7_entry_failure_aborts itemsC7 optsC7 archC7b { password := none } (by decide)
      ⟨("bad.txt", FileData.stream (.error "stream read error")), by decide,
        "stream read error", rfl⟩
      ⟨entC7, by decide, rfl, ⟨.passwordRequired "x.txt", by decide⟩⟩).1,
    (C7_entry_failure_aborts itemsC7 optsC7 archC7b { password := none } (by decide)
      ⟨("bad.txt", FileData.stream (.error "stream read error")), by decide,
        "stream read error", rfl⟩
      ⟨entC7, by decide, rfl, ⟨.passwordRequired "x.txt", by decide⟩⟩).2⟩

/-- C8: metadata reading is independent of the supplied password — on any
parsed archive, getZipInfo succeeds and returns identical metadata for every
password option, because the metadata walk never decompresses or decrypts
entry payloads. -/
theorem C8_metadata_password_independent :
    ∀ (arch : Archive) (pw1 pw2 : Option String),
      getZipInfo arch { password := pw1 } = getZipInfo arch { password := pw2 } ∧
      ∃ m, getZipInfo arch { password := pw1 } = .ok m :=
  fun _ _ _ => ⟨rfl, ⟨_, rfl⟩⟩

end ZipMCP
